import Mathlib

/-!
Verification of the HTML structured converter and the intelligent chunker of
the `app_refactored_ver2.0` repository.  Python strings are modelled as
`List Char` (named `Str` below); each Python helper is translated into an
executable Lean function operating on that representation.
-/

set_option maxRecDepth 8000

/-- Python strings are modelled as lists of characters. -/
abbrev Str := List Char

/-- Characters treated as whitespace by Python's `str.strip()` / `\s`
(ASCII portion; the inputs in play contain no exotic Unicode spaces). -/
def isPyWs (c : Char) : Bool :=
  c == ' ' || c == '\t' || c == '\n' || c == '\r' || c == '\x0b' || c == '\x0c'

/-- Python `str.strip()`: drop whitespace from both ends. -/
def pyStrip (s : Str) : Str :=
  ((s.dropWhile isPyWs).reverse.dropWhile isPyWs).reverse

/-- Python `str.upper()` restricted to the characters that occur in the
converter's data: ASCII letters plus the Turkish letters used by the
PCN keywords.  (`i` maps to `I` as in default Unicode uppercasing; the
dotted `İ` is already uppercase.) -/
def charUpper (c : Char) : Char :=
  if c.isLower then Char.ofNat (c.toNat - 32)
  else if c == 'ç' then 'Ç'
  else if c == 'ö' then 'Ö'
  else if c == 'ü' then 'Ü'
  else if c == 'ğ' then 'Ğ'
  else if c == 'ş' then 'Ş'
  else if c == 'ı' then 'I'
  else c

/-- Python `str.upper()` on a whole string (character-wise for the
characters in play). -/
def pyUpper (s : Str) : Str := s.map charUpper

/-- Python `str.rstrip(".")`: drop trailing `.` characters. -/
def rstripDots (s : Str) : Str :=
  (s.reverse.dropWhile (fun c => c == '.')).reverse

/-- `"sep".join(parts)`. -/
def joinSep (sep : Str) : List Str → Str
  | [] => []
  | [x] => x
  | x :: y :: xs => x ++ sep ++ joinSep sep (y :: xs)

/-- Concatenation of a list of strings (used to state that a split
reassembles to its input). -/
def concatAll : List Str → Str
  | [] => []
  | x :: xs => x ++ concatAll xs

/-- Whether `pat` occurs at the start of `s` (literal, not regex). -/
def leadsWith : Str → Str → Bool
  | [], _ => true
  | _ :: _, [] => false
  | p :: ps, c :: cs => p == c && leadsWith ps cs

/-- Python's `pat in s` substring test. -/
def hasSub (pat : Str) (s : Str) : Bool :=
  if leadsWith pat s then true
  else
    match s with
    | [] => false
    | _ :: rest => hasSub pat rest

/-! ## HTMLStructuredConverter: constants -/

/-- `HTMLStructuredConverter.PCN_KEYWORDS` (column headers recognised as
currency-note markers). -/
def PCN_KEYWORDS : List Str :=
  [("PCN").data, ("P.C.N").data, ("PARA CİNSİ").data, ("DÖVİZ").data,
   ("DÖVİZ CİNSİ").data, ("CUR").data, ("CURRENCY").data, ("P.CİNSİ").data,
   ("PARA BIRIMI").data, ("PARA BİRİMİ").data]

/-- `HTMLStructuredConverter.CURRENCY_CODES`. -/
def CURRENCY_CODES : List Str :=
  [("TRY").data, ("USD").data, ("EUR").data, ("GBP").data, ("CHF").data,
   ("JPY").data, ("TL").data]

/-! ## `_build_pcn_map` -/

/-- Header normalisation used when recognising PCN columns:
`h.upper().strip().rstrip(".")`. -/
def normHeader (h : Str) : Str := rstripDots (pyStrip (pyUpper h))

/-- Indices of the header cells whose normalisation is a PCN keyword
(the `pcn_indices` loop of `_build_pcn_map` / `_parse_trs_smart`). -/
def pcnIndicesOf (headers : List Str) : List Nat :=
  (List.range headers.length).filter
    (fun i => PCN_KEYWORDS.contains (normHeader (headers.getD i [])))

/-- The `col_to_pcn` dictionary-building loop of `_build_pcn_map`:
for each PCN index, all columns from the previous boundary up to it
(except column 0, the row label) are associated with that PCN column. -/
def pcnAssign : List Nat → Nat → List (Nat × Nat)
  | [], _ => []
  | p :: rest, prevBoundary =>
      ((List.range' prevBoundary (p - prevBoundary)).filter
        (fun c => c != 0)).map (fun c => (c, p))
      ++ pcnAssign rest (p + 1)

/-- `HTMLStructuredConverter._build_pcn_map`, as the insertion-ordered
association list of the produced dict. -/
def buildPcnMap (headers : List Str) : List (Nat × Nat) :=
  pcnAssign (pcnIndicesOf headers) 0

/-- Lookup in a `Nat → Nat` insertion-ordered association list with Python
dict semantics (a later insertion overrides an earlier one). -/
def dictFind (m : List (Nat × Nat)) (key : Nat) : Option Nat :=
  match m with
  | [] => none
  | (k, v) :: rest =>
      match dictFind rest key with
      | some r => some r
      | none => if k = key then some v else none

/-- Lookup in a `Nat → Str` association list (keys are unique wherever
this is used, so first match suffices). -/
def dictGetNS (m : List (Nat × Str)) (key : Nat) : Option Str :=
  match m with
  | [] => none
  | (k, v) :: rest => if k = key then some v else dictGetNS rest key

/-! ## Period-column detection: `re.search(r'(\d{4}[/\-]\d{1,2})', h)` -/

/-- Try the period pattern anchored at the current position:
four digits, a `/` or `-`, then one or two digits (greedy). -/
def periodAt : Str → Option Str
  | a :: b :: c :: d :: e :: f :: rest =>
      if a.isDigit && b.isDigit && c.isDigit && d.isDigit
          && (e == '/' || e == '-') && f.isDigit then
        match rest with
        | g :: _ => if g.isDigit then some [a, b, c, d, e, f, g]
                    else some [a, b, c, d, e, f]
        | [] => some [a, b, c, d, e, f]
      else none
  | _ => none

/-- `re.search` for the period pattern: leftmost match while scanning. -/
def periodSearch : Str → Option Str
  | [] => none
  | c :: rest =>
      match periodAt (c :: rest) with
      | some m => some m
      | none => periodSearch rest

/-- The `period_cols` map of `_parse_trs_smart`: header index to the
matched period text. -/
def periodColsOf (headers : List Str) : List (Nat × Str) :=
  (List.range headers.length).filterMap
    (fun i => (periodSearch (headers.getD i [])).map (fun m => (i, m)))

/-! ## `_parse_trs_smart`: the per-row value loop -/

/-- The body of the `for i in range(1, len(headers))` loop of
`_parse_trs_smart` for one column index `i`: `none` when the loop
`continue`s, otherwise the part appended for this column. -/
def partAt (pcnIdcs : List Nat) (colToPcn : List (Nat × Nat))
    (periodCols : List (Nat × Str)) (headers vals : List Str) (i : Nat) :
    Option Str :=
  if pcnIdcs.contains i then none
  else if vals.length ≤ i then none
  else
    let value := pyStrip (vals.getD i [])
    if value = [] then none
    else
      let headerName := headers.getD i []
      let pcn :=
        match dictFind colToPcn i with
        | some pcnCol =>
            if pcnCol < vals.length then pyStrip (vals.getD pcnCol []) else []
        | none => []
      match dictGetNS periodCols i with
      | some per =>
          if pcn ≠ [] then
            some (per ++ (" döneminde ").data ++ value ++ [' '] ++ pcn)
          else some (per ++ (" döneminde ").data ++ value)
      | none =>
          if pcn ≠ [] then some (headerName ++ [' '] ++ value ++ [' '] ++ pcn)
          else some (headerName ++ (": ").data ++ value)

/-- The `parts` list built for one data row of `_parse_trs_smart`. -/
def rowParts (headers vals : List Str) : List Str :=
  (List.range' 1 (headers.length - 1)).filterMap
    (partAt (pcnIndicesOf headers) (buildPcnMap headers)
      (periodColsOf headers) headers vals)

/-- The lines `_parse_trs_smart` appends for one data row: skipped when
empty, a `\n### ` sub-heading for a single-cell row, otherwise a
`label: part, part, ...` data line (or the bare label when no parts). -/
def dataRowLines (headers vals : List Str) : List Str :=
  if vals = [] ∨ vals.all (fun v => pyStrip v = []) then []
  else if vals.length = 1 then
    if pyStrip (vals.getD 0 []) ≠ [] then
      [("\n### ").data ++ pyStrip (vals.getD 0 [])]
    else []
  else
    let label := vals.getD 0 []
    let parts := rowParts headers vals
    if parts ≠ [] then [label ++ (": ").data ++ joinSep ((", ").data) parts]
    else if label ≠ [] then [label] else []

/-! ## `_find_header_row`, `_parse_simple_trs`, `_flatten_with_currency` -/

/-- `HTMLStructuredConverter._find_header_row`: index and texts of the
first row with at least three cells. -/
def findHeaderRowFrom (trs : List (List Str)) (idx : Nat) :
    Option (Nat × List Str) :=
  match trs with
  | [] => none
  | r :: rest => if 3 ≤ r.length then some (idx, r) else findHeaderRowFrom rest (idx + 1)

/-- The parts loop of `_flatten_with_currency` over `texts[1:]`: a cell
followed by a currency-code cell is merged with it. -/
def fwcParts : List Str → List Str
  | [] => []
  | [x] => [pyStrip x]
  | x :: y :: rest =>
      if CURRENCY_CODES.contains (pyUpper (pyStrip y)) then
        (pyStrip x ++ [' '] ++ pyStrip y) :: fwcParts rest
      else pyStrip x :: fwcParts (y :: rest)

/-- `HTMLStructuredConverter._flatten_with_currency`. -/
def flattenWithCurrency (texts : List Str) : Str :=
  match texts with
  | [] => []
  | label :: rest =>
      let parts := fwcParts rest
      if parts ≠ [] then label ++ (": ").data ++ joinSep ((", ").data) parts
      else label

/-- `HTMLStructuredConverter._parse_simple_trs` (rows are given as the
lists of their cells' stripped texts). -/
def parseSimpleTrs (trs : List (List Str)) (sectionTitle : Str) : Str :=
  let lines0 := if sectionTitle ≠ [] then [("## ").data ++ sectionTitle] else []
  let lines := trs.filterMap (fun tr =>
    let texts := tr.filter (fun t => t ≠ [])
    match texts with
    | [] => none
    | [a] => some a
    | [a, b] => some (a ++ (": ").data ++ b)
    | _ => some (flattenWithCurrency texts))
  joinSep (("\n").data) (lines0 ++ lines)

/-- `tr.get_text(strip=True)` for a row: the stripped cell texts
concatenated (text nodes are stripped and joined by BeautifulSoup). -/
def rowText (tr : List Str) : Str := concatAll (tr.map pyStrip)

/-- `HTMLStructuredConverter._parse_trs_smart` (rows are given as the
lists of their cells' stripped texts). -/
def parseTrsSmart (trs : List (List Str)) (sectionTitle : Str) : Str :=
  if trs = [] then []
  else
    let lines0 := if sectionTitle ≠ [] then [("## ").data ++ sectionTitle] else []
    match findHeaderRowFrom trs 0 with
    | none => parseSimpleTrs trs sectionTitle
    | some (hIdx, headers) =>
        let preLines := (trs.take hIdx).filterMap (fun tr =>
          let t := rowText tr
          if t ≠ [] then some (("### ").data ++ t) else none)
        let dataLines := (trs.drop (hIdx + 1)).flatMap (dataRowLines headers)
        joinSep (("\n").data) (lines0 ++ preLines ++ dataLines)

/-! ## IntelligentChunker -/

/-- The chunker's constructor parameters. -/
structure IntelligentChunker where
  chunkSize : Nat
  chunkOverlap : Nat
deriving DecidableEq

/-- A chunk dict as produced by the chunker. -/
structure Chunk where
  content : Str
  header : Option Str
  level : Nat
  position : Nat
deriving DecidableEq

/-- One markdown section found by `find_sections`: stripped title, heading
level, and the match's start/end offsets in the text. -/
structure MdSection where
  title : Str
  level : Nat
  start : Nat
  stop : Nat
deriving DecidableEq

/-- Length of the leading run of characters satisfying `p`. -/
def countLeading (p : Char → Bool) : Str → Nat
  | [] => 0
  | c :: rest => if p c then countLeading p rest + 1 else 0

/-- Backtracking of `\s+` against the following `.+`: the largest number
`i ≤ w` of whitespace characters `\s+` can keep such that the next
character exists and is not a newline (searched from `w` downwards). -/
def bestWsSplit (afterH : Str) : Nat → Option Nat
  | 0 => none
  | i + 1 =>
      match (afterH.drop (i + 1)).head? with
      | some c => if c ≠ '\n' then some (i + 1) else bestWsSplit afterH i
      | none => bestWsSplit afterH i

/-- Attempt the header regex `^(#{1,6})\s+(.+)$` at the given line start:
returns the heading level, the raw `(.+)` group and the number of
characters the match consumes.  (`#{1,6}` must take the whole hash run:
a shorter take leaves `#`, which `\s` rejects; more than six hashes
therefore fails.) -/
def tryHeader (l : Str) : Option (Nat × Str × Nat) :=
  let k := countLeading (fun c => c == '#') l
  if k = 0 ∨ 6 < k then none
  else
    let afterH := l.drop k
    let w := countLeading isPyWs afterH
    if w = 0 then none
    else
      match bestWsSplit afterH w with
      | none => none
      | some i =>
          let title := (afterH.drop i).takeWhile (fun c => c ≠ '\n')
          some (k, title, k + i + title.length)

/-- The `re.finditer` scan of `find_sections`: tries the header pattern at
every line start, continuing after the end of each match.  The fuel is one
more than the remaining length, and each step consumes at least one
character, so it never runs out. -/
def findSecGo : Nat → Str → Nat → Bool → List MdSection
  | 0, _, _, _ => []
  | _, [], _, _ => []
  | fuel + 1, c :: rest, pos, lineStart =>
      if lineStart ∧ c = '#' then
        match tryHeader (c :: rest) with
        | some (k, title, consumed) =>
            ⟨pyStrip title, k, pos, pos + consumed⟩ ::
              findSecGo fuel ((c :: rest).drop consumed) (pos + consumed) false
        | none => findSecGo fuel rest (pos + 1) (c == '\n')
      else findSecGo fuel rest (pos + 1) (c == '\n')

/-- `IntelligentChunker.find_sections`. -/
def findSections (text : Str) : List MdSection :=
  findSecGo (text.length + 1) text 0 true

/-- Python `text.split(sep)` (non-empty separator), with fuel as above. -/
def splitOnGo (sep : Str) : Nat → Str → Str → List Str
  | _, acc, [] => [acc.reverse]
  | 0, acc, rest => [acc.reverse ++ rest]
  | fuel + 1, acc, c :: cs =>
      if leadsWith sep (c :: cs) then
        acc.reverse :: splitOnGo sep fuel [] ((c :: cs).drop sep.length)
      else splitOnGo sep fuel (c :: acc) cs

/-- Python `text.split(sep)` for a non-empty separator. -/
def pySplitOn (sep : Str) (s : Str) : List Str :=
  if sep = [] then [s] else splitOnGo sep (s.length + 1) [] s

/-- The paragraph-accumulation loop of `_chunk_by_paragraphs`. -/
def foldParas (k : IntelligentChunker) (header : Option Str) :
    List Str → Str → List Chunk → List Chunk
  | [], current, acc =>
      if current ≠ [] then acc ++ [⟨pyStrip current, header, 0, acc.length⟩]
      else acc
  | p :: ps, current, acc =>
      if current.length + p.length < k.chunkSize then
        foldParas k header ps (current ++ p ++ ("\n\n").data) acc
      else
        foldParas k header ps (p ++ ("\n\n").data)
          (if current ≠ [] then acc ++ [⟨pyStrip current, header, 0, acc.length⟩]
           else acc)

/-- `IntelligentChunker._chunk_by_paragraphs`. -/
def chunkByParagraphs (k : IntelligentChunker) (text : Str)
    (header : Option Str) : List Chunk :=
  let ps0 := pySplitOn (("\n\n").data) text
  let paragraphs := if ps0.length ≤ 1 then pySplitOn (("\n").data) text else ps0
  foldParas k header paragraphs [] []

/-- Insert into a sorted list of naturals. -/
def insertSorted (x : Nat) : List Nat → List Nat
  | [] => [x]
  | y :: ys => if x ≤ y then x :: y :: ys else y :: insertSorted x ys

/-- Python `sorted` on a list of naturals (insertion sort). -/
def sortNats : List Nat → List Nat
  | [] => []
  | x :: xs => insertSorted x (sortNats xs)

/-- Python dict assignment `d[key] = v` on a `level → title` map kept as
an insertion-ordered association list. -/
def dictSetNS (d : List (Nat × Str)) (key : Nat) (v : Str) :
    List (Nat × Str) :=
  match d with
  | [] => [(key, v)]
  | (k0, v0) :: rest =>
      if k0 = key then (k0, v) :: rest else (k0, v0) :: dictSetNS rest key v

/-- The section loop of `chunk_by_headers`: updates the `parent_headers`
map, clears deeper levels, builds the composite header, and emits a chunk
when the section text is non-empty (`position` is the section index). -/
def cbhGo (text : Str) : List MdSection → Nat → List (Nat × Str) → List Chunk
  | [], _, _ => []
  | sec :: rest, i, parents =>
      let nextStart := match rest with | n :: _ => n.start | [] => text.length
      let sectionText := pyStrip ((text.drop sec.start).take (nextStart - sec.start))
      let p1 := dictSetNS parents sec.level sec.title
      let p2 := p1.filter (fun kv => ¬ (sec.level < kv.1))
      let below := (sortNats (p2.map (fun kv => kv.1))).filterMap
        (fun lv => if lv < sec.level then dictGetNS p2 lv else none)
      let compositeParts := below ++ [sec.title]
      let compositeHeader :=
        if 1 < compositeParts.length then joinSep ((" > ").data) compositeParts
        else sec.title
      (if sectionText ≠ [] then [⟨sectionText, some compositeHeader, sec.level, i⟩]
       else [])
      ++ cbhGo text rest (i + 1) p2

/-- `IntelligentChunker.chunk_by_headers`. -/
def chunkByHeaders (k : IntelligentChunker) (text : Str) : List Chunk :=
  let sections := findSections text
  if sections = [] then chunkByParagraphs k text none
  else cbhGo text sections 0 []

/-- Re-splitting of an oversized chunk in `chunk`: paragraph sub-chunks
with the parent's header and level restored. -/
def resplitSubs (k : IntelligentChunker) (c : Chunk) : List Chunk :=
  (chunkByParagraphs k c.content c.header).map
    (fun sub => { sub with header := c.header, level := c.level })

/-- The filtering loop of `chunk`: drop chunks whose stripped content is
shorter than 50, re-split chunks longer than `chunk_size * 1.2` (the float
product is exact for the sizes in play, so it is modelled as
`10·len > 12·chunk_size`), and keep the rest. -/
def filterStep (k : IntelligentChunker) : List Chunk → List Chunk
  | [] => []
  | c :: cs =>
      if (pyStrip c.content).length < 50 then filterStep k cs
      else if 12 * k.chunkSize < 10 * c.content.length then
        resplitSubs k c ++ filterStep k cs
      else c :: filterStep k cs

/-- `IntelligentChunker.chunk`. -/
def chunk (k : IntelligentChunker) (text : Str) : List Chunk :=
  filterStep k (chunkByHeaders k text)

/-! ## `_detect_format` -/

/-- An element of the parsed document, as far as `_detect_format` looks at
it: tag name, optional `id` attribute, and the class list.  The soup is
modelled as the list of all elements `find_all` can reach; `_detect_format`
only performs existence queries, so no tree structure is needed. -/
structure SoupElem where
  name : Str
  idAttr : Option Str
  classes : List Str
deriving DecidableEq

/-- `soup.find_all("tbody", id=True)` is non-empty: some `tbody` carries an
`id` attribute. -/
def hasTbodyWithId (soup : List SoupElem) : Bool :=
  soup.any (fun e => e.name == ("tbody").data && e.idAttr.isSome)

/-- `soup.find("div", class_=lambda c: c and "dl-bold" in c)` finds
something: some `div` has a class whose text contains `dl-bold`
(BeautifulSoup applies the predicate to each individual class string). -/
def hasDlBoldDiv (soup : List SoupElem) : Bool :=
  soup.any (fun e => e.name == ("div").data
    && e.classes.any (fun c => hasSub (("dl-bold").data) c))

/-- `HTMLStructuredConverter._detect_format`: a pure function of the soup
(it performs no mutation and cannot fail). -/
def detectFormat (soup : List SoupElem) : Str :=
  if hasTbodyWithId soup then ("teklif").data
  else if hasDlBoldDiv soup then ("performans").data
  else ("mali_veri").data

/-! ## `_parse_amount_block` and `_looks_like_amount_block` -/

/-- `[\d.]` character class. -/
def isDigitDot (c : Char) : Bool := c.isDigit || c == '.'

/-- The currency alternation `(TRY|USD|EUR|GBP|TL)` tried as a literal
prefix, in the regex's order (the alternatives are mutually non-ambiguous
literals). -/
def codeAfter (s : Str) : Option (Str × Str) :=
  if leadsWith (("TRY").data) s then some ((("TRY").data), s.drop 3)
  else if leadsWith (("USD").data) s then some ((("USD").data), s.drop 3)
  else if leadsWith (("EUR").data) s then some ((("EUR").data), s.drop 3)
  else if leadsWith (("GBP").data) s then some ((("GBP").data), s.drop 3)
  else if leadsWith (("TL").data) s then some ((("TL").data), s.drop 2)
  else none

/-- `re.match(r'^([\d.]+)\s*(TRY|USD|EUR|GBP|TL)\s*', text)`: the leading
amount, the currency code, and the text after the match.  (Giving back
characters from the greedy `[\d.]+` or `\s*` cannot help the literal
alternation match, so maximal munch is faithful.) -/
def matchTotal (t : Str) : Option (Str × Str × Str) :=
  let amt := t.takeWhile isDigitDot
  if amt = [] then none
  else
    match codeAfter ((t.dropWhile isDigitDot).dropWhile isPyWs) with
    | some (code, r2) => some (amt, code, r2.dropWhile isPyWs)
    | none => none

/-- `HTMLStructuredConverter._looks_like_amount_block`:
`re.search(r'[\d.]{5,}\s*(?:TRY|USD|EUR|GBP|TL)', text)`. -/
def looksLikeAmountBlock : Str → Bool
  | [] => false
  | c :: rest =>
      (5 ≤ ((c :: rest).takeWhile isDigitDot).length
        && (codeAfter (((c :: rest).dropWhile isDigitDot).dropWhile isPyWs)).isSome)
      || looksLikeAmountBlock rest

/-- A word character for `\b` (ASCII letters, digits, underscore, plus the
Turkish letters in play; Python's `\w` is Unicode-aware). -/
def isWordChar (c : Char) : Bool :=
  c.isAlphanum || c == '_'
    || (['ğ', 'ü', 'ş', 'ı', 'ö', 'ç', 'Ğ', 'Ü', 'Ş', 'İ', 'Ö', 'Ç']).contains c

/-- The character class `[a-zğüşıöç]` under `re.IGNORECASE`: ASCII letters
of either case and the Turkish letters of either case (`İ` lowercases to a
two-character sequence in Python and does not match the class). -/
def letterCI (c : Char) : Bool :=
  c.isLower || c.isUpper
    || (['ğ', 'ü', 'ş', 'ı', 'ö', 'ç', 'Ğ', 'Ü', 'Ş', 'Ö', 'Ç']).contains c

/-- Whether `re.split(r'(?=\b[a-zğüşıöç]\)\s*)', ..., flags=IGNORECASE)`
splits before the current character: a word boundary (the previous
character, if any, is not a word character — the current one always is),
a class letter, then a literal `)`. -/
def cutHere (prev : Option Char) (c : Char) (rest : Str) : Bool :=
  (match prev with | none => true | some p => !(isWordChar p))
    && letterCI c
    && (match rest with | r :: _ => r == ')' | [] => false)

/-- The zero-width `re.split` of `_parse_amount_block`: a new piece starts
at every position where the lookahead matches. -/
def splitGo (prev : Option Char) (acc : Str) : Str → List Str
  | [] => [acc.reverse]
  | c :: rest =>
      if cutHere prev c rest then acc.reverse :: splitGo (some c) [c] rest
      else splitGo (some c) (c :: acc) rest

/-- `re.split(r'(?=\b[a-zğüşıöç]\)\s*)', remainder, flags=re.IGNORECASE)`. -/
def splitSubItems (t : Str) : List Str := splitGo none [] t

/-- `re.sub(r'\s{2,}', ' ', item)`: each run of two or more whitespace
characters becomes a single space (fuelled; each step consumes at least
one character). -/
def collapseWsGo : Nat → Str → Str
  | 0, s => s
  | _, [] => []
  | fuel + 1, c :: rest =>
      if isPyWs c then
        match rest with
        | r :: _ =>
            if isPyWs r then ' ' :: collapseWsGo fuel (rest.dropWhile isPyWs)
            else c :: collapseWsGo fuel rest
        | [] => [c]
      else c :: collapseWsGo fuel rest

/-- `re.sub(r'\s{2,}', ' ', item)`. -/
def collapseWs (s : Str) : Str := collapseWsGo (s.length + 1) s

/-- `re.sub(r'([\d.]+)\s*(TRY|USD|EUR|GBP|TL)\s*', r'\1 \2 - ', item)`:
left-to-right scan; at a digit-or-dot run followed (after whitespace) by a
currency code, the whole match is rewritten as `run code - `; otherwise
advance one character (retries inside a failed run also fail, since the
text after the maximal run is unchanged). -/
def subAmountsGo : Nat → Str → Str
  | 0, s => s
  | _, [] => []
  | fuel + 1, c :: rest =>
      if isDigitDot c then
        let run := (c :: rest).takeWhile isDigitDot
        let after1 := ((c :: rest).dropWhile isDigitDot).dropWhile isPyWs
        match codeAfter after1 with
        | some (code, after2) =>
            run ++ [' '] ++ code ++ (" - ").data
              ++ subAmountsGo fuel (after2.dropWhile isPyWs)
        | none => c :: subAmountsGo fuel rest
      else c :: subAmountsGo fuel rest

/-- The amount rewriting inside one sub-item. -/
def subAmounts (s : Str) : Str := subAmountsGo (s.length + 1) s

/-- Python `item.rstrip(' -')`. -/
def rstripSpDash (s : Str) : Str :=
  (s.reverse.dropWhile (fun c => c == ' ' || c == '-')).reverse

/-- Processing of one sub-item of `_parse_amount_block`: strip, skip if
empty, collapse whitespace runs, rewrite amount/code pairs, trim trailing
space/dash, skip if empty, emit indented by two spaces. -/
def renderItem (item : Str) : Option Str :=
  let it1 := pyStrip item
  if it1 = [] then none
  else
    let it4 := rstripSpDash (subAmounts (collapseWs it1))
    if it4 = [] then none else some ((("  ").data) ++ it4)

/-- `HTMLStructuredConverter._parse_amount_block`. -/
def parseAmountBlock (t : Str) : Str :=
  let pr := matchTotal t
  let headLines :=
    match pr with
    | some (a, code, _) => [(("Toplam: ").data) ++ a ++ [' '] ++ code]
    | none => []
  let remainder := match pr with | some (_, _, rest) => rest | none => t
  let items := (splitSubItems remainder).filterMap renderItem
  let parts := headLines ++ items
  if parts ≠ [] then joinSep (("\n").data) parts else t

/-! ## Claim-side comparison definitions -/

/-- Claim-side variant of `partAt` for the ragged-row claim, written from
the claim's wording: it is only consulted for columns whose cells are
present (there is no skip guard), and a marker column lying at or beyond
the row's length contributes an empty marker. -/
def partAtSpec (pcnIdcs : List Nat) (colToPcn : List (Nat × Nat))
    (periodCols : List (Nat × Str)) (headers vals : List Str) (i : Nat) :
    Option Str :=
  if pcnIdcs.contains i then none
  else
    let value := pyStrip (vals.getD i [])
    if value = [] then none
    else
      let headerName := headers.getD i []
      let pcn :=
        match dictFind colToPcn i with
        | some pcnCol =>
            if pcnCol < vals.length then pyStrip (vals.getD pcnCol []) else []
        | none => []
      match dictGetNS periodCols i with
      | some per =>
          if pcn ≠ [] then
            some (per ++ (" döneminde ").data ++ value ++ [' '] ++ pcn)
          else some (per ++ (" döneminde ").data ++ value)
      | none =>
          if pcn ≠ [] then some (headerName ++ [' '] ++ value ++ [' '] ++ pcn)
          else some (headerName ++ (": ").data ++ value)

/-- Claim-side parts list for a ragged row: only the value-column indexes
of cells actually present in the row are visited. -/
def rowPartsSpec (headers vals : List Str) : List Str :=
  (List.range' 1 (vals.length - 1)).filterMap
    (partAtSpec (pcnIndicesOf headers) (buildPcnMap headers)
      (periodColsOf headers) headers vals)

/-- A piece of the sub-item split that begins at a split position: its
first character is a class letter and its second is `)`. -/
def startsCut (p : Str) : Prop :=
  ∃ l tl, p = l :: ')' :: tl ∧ letterCI l = true

/-! ## Helper lemmas -/

theorem dictFind_constMap (v : Nat) :
    ∀ (xs : List Nat) (i : Nat),
      dictFind (xs.map (fun c => (c, v))) i = if i ∈ xs then some v else none := by
  intro xs
  induction xs with
  | nil => intro i; simp [dictFind]
  | cons a xs ih =>
    intro i
    simp only [List.map_cons, dictFind, ih]
    by_cases h : i ∈ xs
    · simp [h]
    · by_cases h2 : a = i
      · subst h2; simp [h]
      · have hia : ¬ i = a := fun hi => h2 hi.symm
        simp [h, h2, hia]

theorem filterMapCongr {α β : Type} (f g : α → Option β) :
    ∀ (l : List α), (∀ a ∈ l, f a = g a) → l.filterMap f = l.filterMap g := by
  intro l
  induction l with
  | nil => intro _; rfl
  | cons a l ih =>
    intro h
    simp only [List.filterMap_cons, h a (List.mem_cons_self a l),
      ih (fun x hx => h x (List.mem_cons_of_mem a hx))]

theorem partAt_none_of_le (p : List Nat) (m : List (Nat × Nat))
    (pc : List (Nat × Str)) (headers vals : List Str) (i : Nat)
    (h : vals.length ≤ i) : partAt p m pc headers vals i = none := by
  unfold partAt
  by_cases hc : i ∈ p
  · simp [hc]
  · simp [hc, h]

theorem partAt_eq_spec (p : List Nat) (m : List (Nat × Nat))
    (pc : List (Nat × Str)) (headers vals : List Str) (i : Nat)
    (h : i < vals.length) :
    partAt p m pc headers vals i = partAtSpec p m pc headers vals i := by
  unfold partAt partAtSpec
  by_cases hc : i ∈ p
  · simp [hc]
  · simp [hc, Nat.not_le.mpr h]

theorem filterStep_mem (k : IntelligentChunker) :
    ∀ (cs : List Chunk) (c : Chunk), c ∈ filterStep k cs →
      (50 ≤ (pyStrip c.content).length ∧ 10 * c.content.length ≤ 12 * k.chunkSize)
      ∨ ∃ cp, cp ∈ cs ∧ 12 * k.chunkSize < 10 * cp.content.length
          ∧ c ∈ resplitSubs k cp := by
  intro cs
  induction cs with
  | nil => intro c h; simp [filterStep] at h
  | cons d cs ih =>
    intro c h
    unfold filterStep at h
    by_cases h1 : (pyStrip d.content).length < 50
    · rw [if_pos h1] at h
      rcases ih c h with hl | ⟨cp, hcp, hx, hm⟩
      · exact Or.inl hl
      · exact Or.inr ⟨cp, List.mem_cons_of_mem _ hcp, hx, hm⟩
    · rw [if_neg h1] at h
      by_cases h2 : 12 * k.chunkSize < 10 * d.content.length
      · rw [if_pos h2] at h
        rcases List.mem_append.mp h with hm | hm
        · exact Or.inr ⟨d, List.mem_cons_self _ _, h2, hm⟩
        · rcases ih c hm with hl | ⟨cp, hcp, hx, hmm⟩
          · exact Or.inl hl
          · exact Or.inr ⟨cp, List.mem_cons_of_mem _ hcp, hx, hmm⟩
      · rw [if_neg h2] at h
        rcases List.mem_cons.mp h with rfl | hm
        · exact Or.inl ⟨by omega, by omega⟩
        · rcases ih c hm with hl | ⟨cp, hcp, hx, hmm⟩
          · exact Or.inl hl
          · exact Or.inr ⟨cp, List.mem_cons_of_mem _ hcp, hx, hmm⟩

theorem splitGo_concat :
    ∀ (t : Str) (prev : Option Char) (acc : Str),
      concatAll (splitGo prev acc t) = acc.reverse ++ t := by
  intro t
  induction t with
  | nil => intro prev acc; simp [splitGo, concatAll]
  | cons c rest ih =>
    intro prev acc
    unfold splitGo
    by_cases h : cutHere prev c rest = true
    · rw [if_pos h]
      simp only [concatAll, ih]
      simp
    · rw [if_neg h, ih]
      simp

theorem splitGo_shape :
    ∀ (t : Str) (prev : Option Char) (acc : Str),
      ∃ s1 R, splitGo prev acc t = (acc.reverse ++ s1) :: R := by
  intro t
  induction t with
  | nil => intro prev acc; exact ⟨[], [], by simp [splitGo]⟩
  | cons c rest ih =>
    intro prev acc
    unfold splitGo
    by_cases h : cutHere prev c rest = true
    · exact ⟨[], splitGo (some c) [c] rest, by rw [if_pos h]; simp⟩
    · obtain ⟨s1, R, hs⟩ := ih (some c) (c :: acc)
      exact ⟨c :: s1, R, by rw [if_neg h, hs]; simp⟩

theorem splitGo_tail_cut :
    ∀ (n : Nat) (t : Str), t.length ≤ n → ∀ (prev : Option Char) (acc : Str),
      ∀ p ∈ (splitGo prev acc t).drop 1, startsCut p := by
  intro n
  induction n with
  | zero =>
    intro t ht prev acc p hp
    have h0 : t = [] := List.length_eq_zero.mp (Nat.le_zero.mp ht)
    rw [h0] at hp
    simp [splitGo] at hp
  | succ n ih =>
    intro t ht prev acc p hp
    match t, ht with
    | [], _ => simp [splitGo] at hp
    | c :: rest, ht =>
      unfold splitGo at hp
      by_cases h : cutHere prev c rest = true
      · rw [if_pos h] at hp
        simp only [List.drop_succ_cons, List.drop_zero] at hp
        have h' := h
        unfold cutHere at h'
        simp only [Bool.and_eq_true] at h'
        obtain ⟨⟨hprev, hc⟩, hr⟩ := h'
        have hrest : ∃ rest2, rest = ')' :: rest2 := by
          match rest, hr with
          | r :: rest2, hr =>
            refine ⟨rest2, ?_⟩
            have : r = ')' := by simpa using hr
            rw [this]
        obtain ⟨rest2, rfl⟩ := hrest
        have hcut2 : ¬ (cutHere (some c) ')' rest2 = true) := by
          unfold cutHere
          have hl : letterCI ')' = false := by rfl
          simp [hl]
        rw [splitGo, if_neg hcut2] at hp
        obtain ⟨s1, R, hshape⟩ := splitGo_shape rest2 (some ')') (')' :: [c])
        rw [hshape] at hp
        rcases List.mem_cons.mp hp with rfl | hmem
        · exact ⟨c, s1, by simp, hc⟩
        · have hlen : rest2.length ≤ n := by
            simp only [List.length_cons] at ht; omega
          refine ih rest2 hlen (some ')') (')' :: [c]) p ?_
          rw [hshape]
          simpa using hmem
      · rw [if_neg h] at hp
        have hlen : rest.length ≤ n := by
          simp only [List.length_cons] at ht; omega
        exact ih rest hlen (some c) (c :: acc) p hp

/-! ## Concrete inputs used by claim theorems -/

/-- The header row of the documented PCN scenario. -/
def scenarioHeaders : List Str :=
  [("Kalem").data, ("Risk").data, ("PCN").data, ("Mevcut Limit").data]

/-- The data row of the documented PCN scenario. -/
def scenarioRow : List Str :=
  [("UMUMI").data, ("1.346.045.880").data, ("TRY").data, ("2.025.000.000").data]

/-- A text whose single section exceeds the re-split threshold and whose
re-split leaves a ten-character remnant. -/
def oversizedText : Str :=
  ("# T\n").data ++ List.replicate 1300 'A' ++ ("\n\n").data ++ List.replicate 10 'B'

/-- A small single-section text for the re-chunking fixpoint witness. -/
def smallSectionText : Str := ("## T\n").data ++ List.replicate 50 'a'

/-- The chunk `chunk_by_headers` produces for `smallSectionText`. -/
def smallSectionChunk : Chunk := ⟨smallSectionText, some (("T").data), 2, 0⟩

/-- The amount-block input used by the C8 witness. -/
def amountBlockInput : Str := ("10 TRYa) 5 USD x").data

/-! ## Claim theorems -/

/-- C1: evaluating `_parse_trs_smart` on the documented scenario — header
`["Kalem","Risk","PCN","Mevcut Limit"]`, data row
`["UMUMI","1.346.045.880","TRY","2.025.000.000"]` — the code emits
`"UMUMI: Risk 1.346.045.880 TRY, Mevcut Limit: 2.025.000.000"`: the value
column at index 3 lies after the last marker column, so it is rendered
with a colon and without the currency code, contradicting the output
`"UMUMI: Risk 1.346.045.880 TRY, Mevcut Limit 2.025.000.000 TRY"` that
both the spec and the function's own docstring promise. -/
theorem parseTrsSmart_after_last_marker_eval :
    parseTrsSmart [scenarioHeaders, scenarioRow] []
        = ("UMUMI: Risk 1.346.045.880 TRY, Mevcut Limit: 2.025.000.000").data
    ∧ ("UMUMI: Risk 1.346.045.880 TRY, Mevcut Limit: 2.025.000.000").data
        ≠ ("UMUMI: Risk 1.346.045.880 TRY, Mevcut Limit 2.025.000.000 TRY").data := by
  decide

/-- C2 counterexample: with `chunk_size = 10` the sixty-character text
`"A"*60` is produced as a single chunk of length 60, which violates the
claimed bound `len(content) ≤ chunk_size * 1.2`: an oversized chunk whose
paragraph re-split cannot make it smaller is emitted unchecked. -/
theorem chunk_cap_counterexample :
    ∃ c, c ∈ chunk ⟨10, 200⟩ (List.replicate 60 'A')
      ∧ ¬ (10 * c.content.length ≤ 12 * 10 ∧ 50 ≤ (pyStrip c.content).length) :=
  ⟨⟨List.replicate 60 'A', none, 0, 0⟩, by decide, by decide⟩

/-- C2 (amended): every chunk returned by `chunk` either satisfies both
size bounds — stripped length at least 50 and length at most
`chunk_size * 1.2` — or is a paragraph re-split sub-chunk of an oversized
chunk of `chunk_by_headers`, emitted without either check. -/
theorem chunk_mem_bounds_or_resplit (k : IntelligentChunker) (text : Str)
    (c : Chunk) (h : c ∈ chunk k text) :
    (50 ≤ (pyStrip c.content).length ∧ 10 * c.content.length ≤ 12 * k.chunkSize)
    ∨ ∃ cp, cp ∈ chunkByHeaders k text
        ∧ 12 * k.chunkSize < 10 * cp.content.length ∧ c ∈ resplitSubs k cp :=
  filterStep_mem k (chunkByHeaders k text) c h

/-- Witness for C2 (amended) at a concrete produced chunk. -/
theorem chunk_mem_bounds_or_resplit_witness :
    (⟨List.replicate 60 'A', none, 0, 0⟩ : Chunk)
        ∈ chunk ⟨10, 200⟩ (List.replicate 60 'A')
    ∧ ((50 ≤ (pyStrip (Chunk.content ⟨List.replicate 60 'A', none, 0, 0⟩)).length
          ∧ 10 * (Chunk.content ⟨List.replicate 60 'A', none, 0, 0⟩).length ≤ 12 * 10)
        ∨ ∃ cp, cp ∈ chunkByHeaders ⟨10, 200⟩ (List.replicate 60 'A')
            ∧ 12 * 10 < 10 * cp.content.length
            ∧ (⟨List.replicate 60 'A', none, 0, 0⟩ : Chunk) ∈ resplitSubs ⟨10, 200⟩ cp) :=
  ⟨by decide,
   chunk_mem_bounds_or_resplit ⟨10, 200⟩ (List.replicate 60 'A')
     ⟨List.replicate 60 'A', none, 0, 0⟩ (by decide)⟩

/-- C3: when exactly one header cell (at index `m`) normalises to a PCN
keyword, `_build_pcn_map` maps every column index strictly between 0 and
`m` to `m`, maps index 0 to nothing, and maps no index beyond `m`. -/
theorem buildPcnMap_single_marker (headers : List Str) (m : Nat)
    (h : pcnIndicesOf headers = [m]) :
    (∀ i, 0 < i → i < m → dictFind (buildPcnMap headers) i = some m)
    ∧ dictFind (buildPcnMap headers) 0 = none
    ∧ (∀ i, m < i → dictFind (buildPcnMap headers) i = none) := by
  have hb : buildPcnMap headers
      = ((List.range' 0 m).filter (fun c => c != 0)).map (fun c => (c, m)) := by
    simp [buildPcnMap, h, pcnAssign]
  have key : ∀ i, dictFind (buildPcnMap headers) i
      = if i ∈ (List.range' 0 m).filter (fun c => c != 0) then some m else none := by
    intro i; rw [hb]; exact dictFind_constMap m _ i
  have mem : ∀ i, (i ∈ (List.range' 0 m).filter (fun c => c != 0)) ↔ (i < m ∧ i ≠ 0) := by
    intro i
    simp [List.mem_filter, List.mem_range'_1]
  refine ⟨?_, ?_, ?_⟩
  · intro i h1 h2
    rw [key i, if_pos ((mem i).mpr ⟨h2, by omega⟩)]
  · rw [key 0, if_neg (fun hx => by simpa using ((mem 0).mp hx))]
  · intro i h1
    rw [key i, if_neg (fun hx => by have := (mem i).mp hx; omega)]

/-- Witness for C3 on the scenario header row, whose only marker sits at
index 2. -/
theorem buildPcnMap_single_marker_witness :
    pcnIndicesOf scenarioHeaders = [2]
    ∧ dictFind (buildPcnMap scenarioHeaders) 1 = some 2
    ∧ dictFind (buildPcnMap scenarioHeaders) 0 = none
    ∧ dictFind (buildPcnMap scenarioHeaders) 3 = none :=
  ⟨by decide,
   (buildPcnMap_single_marker scenarioHeaders 2 (by decide)).1 1 (by decide) (by decide),
   (buildPcnMap_single_marker scenarioHeaders 2 (by decide)).2.1,
   (buildPcnMap_single_marker scenarioHeaders 2 (by decide)).2.2 3 (by decide)⟩

/-- C4: in the no-header fallback, the row
`["ÇEK KARNESİ","0","2.000.000","TRY","5.000.000","TRY"]` flattens to
exactly `"ÇEK KARNESİ: 0, 2.000.000 TRY, 5.000.000 TRY"`: each currency
cell is appended to the preceding value and `"0"` stands alone. -/
theorem parseSimpleTrs_currency_row :
    parseSimpleTrs
        [[("ÇEK KARNESİ").data, ("0").data, ("2.000.000").data,
          ("TRY").data, ("5.000.000").data, ("TRY").data]] []
      = ("ÇEK KARNESİ: 0, 2.000.000 TRY, 5.000.000 TRY").data := by
  decide

/-- C5 counterexample: on `"# T\n" ++ "A"*1300 ++ "\n\n" ++ "B"*10` with
the default parameters, `chunk` produces two chunks (of lengths 1304 and
10); re-chunking the first yields two chunks and re-chunking the second
yields zero, so no produced chunk re-chunks to exactly one identical
chunk. -/
theorem chunk_rechunk_counterexample :
    (chunk ⟨1000, 200⟩ oversizedText).map
        (fun c => ((chunk ⟨1000, 200⟩ c.content).length, c.content.length))
      = [(2, 1304), (0, 10)] := by
  decide

/-- C5 (amended): re-chunking a chunk's content returns exactly that chunk
provided the content passes the 50-character floor and the
`chunk_size * 1.2` cap and header-based chunking returns it as the single
chunk; re-split sub-chunks of an oversized chunk skip these checks and can
re-chunk to zero or several chunks. -/
theorem chunk_single_fixpoint (s : Str) (c : Chunk)
    (h1 : chunkByHeaders ⟨1000, 200⟩ s = [c]) (h2 : c.content = s)
    (h3 : 50 ≤ (pyStrip s).length) (h4 : 10 * s.length ≤ 12 * 1000) :
    chunk ⟨1000, 200⟩ s = [c] := by
  unfold chunk
  rw [h1]
  unfold filterStep
  have hd : (⟨1000, 200⟩ : IntelligentChunker).chunkSize = 1000 := rfl
  rw [h2, hd, if_neg (by omega), if_neg (by omega)]
  rfl

/-- Witness for C5 (amended) on a small single-section text. -/
theorem chunk_single_fixpoint_witness :
    chunkByHeaders ⟨1000, 200⟩ smallSectionText = [smallSectionChunk]
    ∧ chunk ⟨1000, 200⟩ smallSectionText = [smallSectionChunk] :=
  ⟨by decide,
   chunk_single_fixpoint smallSectionText smallSectionChunk
     (by decide) (by decide) (by decide) (by decide)⟩

/-- C6: for the heading sequence `## A`, `### B`, `### C`, the chunk for B
carries the composite header `"A > B"` and the chunk for C carries
`"A > C"` (not `"A > B > C"`): visiting a heading clears all deeper
recorded titles before composing the header. -/
theorem chunkByHeaders_sibling_composite :
    (chunkByHeaders ⟨1000, 200⟩
        (("## A\nxxx\n### B\nyyy\n### C\nzzz").data)).map (fun c => c.header)
      = [some (("A").data), some (("A > B").data), some (("A > C").data)] := by
  decide

/-- C7 counterexample: under headers `["A","B","C"]` the data row
`["", "X"]` has exactly one non-empty cell, yet `_parse_trs_smart` emits
the data line `": B: X"` for it, not a `"\n### X"` sub-heading — the
sub-heading branch requires exactly one cell, not one non-empty cell. -/
theorem dataRowLines_one_nonempty_counterexample :
    (([[], ("X").data] : List Str).filter (fun v => pyStrip v ≠ [])).length = 1
    ∧ dataRowLines [("A").data, ("B").data, ("C").data] [[], ("X").data]
        = [(": B: X").data]
    ∧ (": B: X").data ≠ ("\n### ").data ++ ("X").data := by
  decide

/-- C7 (amended): every data row that consists of exactly one cell whose
stripped text is non-empty is emitted as a `\n### ` sub-heading line and
never as a data line; rows with several cells are processed as data rows
even when only one cell is non-empty. -/
theorem dataRowLines_single_cell (headers : List Str) (v : Str)
    (hv : pyStrip v ≠ []) :
    dataRowLines headers [v] = [("\n### ").data ++ pyStrip v] := by
  unfold dataRowLines
  simp [hv]

/-- Witness for C7 (amended) on a one-cell row. -/
theorem dataRowLines_single_cell_witness :
    pyStrip (("TOPLAM").data) ≠ []
    ∧ dataRowLines [("A").data, ("B").data, ("C").data] [("TOPLAM").data]
        = [("\n### ").data ++ pyStrip (("TOPLAM").data)] :=
  ⟨by decide,
   dataRowLines_single_cell [("A").data, ("B").data, ("C").data]
     (("TOPLAM").data) (by decide)⟩

/-- C8 counterexample: on `"100 TRY x B) y"` the sub-item split also fires
before the uppercase `B` (the regex is compiled with `IGNORECASE`), so the
parser emits `"Toplam: 100 TRY\n  x\n  B) y"` and not the single sub-item
line a lowercase-only split would produce. -/
theorem parseAmountBlock_case_counterexample :
    parseAmountBlock (("100 TRY x B) y").data)
        = ("Toplam: 100 TRY\n  x\n  B) y").data
    ∧ ("Toplam: 100 TRY\n  x\n  B) y").data
        ≠ ("Toplam: 100 TRY\n  x B) y").data := by
  decide

/-- C8 (amended): when the text begins with a `[\d.]+` amount followed by
one of the codes TRY, USD, EUR, GBP, TL, the first output line is exactly
`"Toplam: <amount> <code>"`, and the remaining lines render the sub-items
of the remainder, which is split exactly at word-boundary positions where
a letter — of either case, `IGNORECASE` being set — is immediately
followed by `)` (the pieces concatenate back to the remainder and every
piece after the first starts with such a letter-parenthesis pair); inside
each sub-item amount-code pairs are rewritten as `"<amount> <code> - "`
with trailing space/dash trimmed. -/
theorem parseAmountBlock_structure (t a code rest : Str)
    (h : matchTotal t = some (a, code, rest)) :
    parseAmountBlock t
        = joinSep (("\n").data)
            (((("Toplam: ").data) ++ a ++ [' '] ++ code)
              :: (splitSubItems rest).filterMap renderItem)
    ∧ concatAll (splitSubItems rest) = rest
    ∧ ∀ p ∈ (splitSubItems rest).drop 1, startsCut p := by
  refine ⟨?_, ?_, ?_⟩
  · unfold parseAmountBlock
    rw [h]
    simp
  · simpa using splitGo_concat rest none []
  · exact splitGo_tail_cut rest.length rest (Nat.le_refl _) none []

/-- Witness for C8 (amended) on `"10 TRYa) 5 USD x"`. -/
theorem parseAmountBlock_structure_witness :
    matchTotal amountBlockInput
        = some ((("10").data), (("TRY").data), ("a) 5 USD x").data)
    ∧ (parseAmountBlock amountBlockInput
          = joinSep (("\n").data)
              (((("Toplam: ").data) ++ ("10").data ++ [' '] ++ ("TRY").data)
                :: (splitSubItems (("a) 5 USD x").data)).filterMap renderItem)
        ∧ concatAll (splitSubItems (("a) 5 USD x").data)) = ("a) 5 USD x").data
        ∧ ∀ p ∈ (splitSubItems (("a) 5 USD x").data)).drop 1, startsCut p) :=
  ⟨by decide,
   parseAmountBlock_structure amountBlockInput (("10").data) (("TRY").data)
     (("a) 5 USD x").data) (by decide)⟩

/-- C9: `_detect_format` is a total pure function of the element tree:
it returns `teklif` exactly when some `tbody` carries an `id` attribute,
otherwise `performans` exactly when some `div` has a class containing
`dl-bold`, and otherwise always `mali_veri`, in that priority order. -/
theorem detectFormat_priority (soup : List SoupElem) :
    (detectFormat soup = ("teklif").data ↔ hasTbodyWithId soup = true)
    ∧ (detectFormat soup = ("performans").data
        ↔ (hasTbodyWithId soup = false ∧ hasDlBoldDiv soup = true))
    ∧ (detectFormat soup = ("mali_veri").data
        ↔ (hasTbodyWithId soup = false ∧ hasDlBoldDiv soup = false)) := by
  unfold detectFormat
  rcases h1 : hasTbodyWithId soup <;> rcases h2 : hasDlBoldDiv soup <;> simp

/-- C10: for a data row with at most as many cells as there are header
columns, the `_parse_trs_smart` value loop equals the loop that visits
only the indexes of cells actually present (with a marker column at or
beyond the row contributing an empty marker): missing cells are silently
skipped and no out-of-range access occurs. -/
theorem rowParts_ragged (headers vals : List Str)
    (hlen : vals.length ≤ headers.length) :
    rowParts headers vals = rowPartsSpec headers vals := by
  unfold rowParts rowPartsSpec
  rcases Nat.eq_zero_or_pos vals.length with h0 | hpos
  · rw [h0]
    simp only [Nat.zero_sub, List.range'_zero, List.filterMap_nil]
    refine List.filterMap_eq_nil_iff.mpr (fun i hi => ?_)
    exact partAt_none_of_le _ _ _ _ _ i (by omega)
  · have hsplit : List.range' 1 (headers.length - 1)
        = List.range' 1 (vals.length - 1)
          ++ List.range' vals.length (headers.length - vals.length) := by
      have h1 : headers.length - 1
          = (headers.length - vals.length) + (vals.length - 1) := by omega
      have h2 : 1 + 1 * (vals.length - 1) = vals.length := by omega
      rw [h1, ← List.range'_append 1 (vals.length - 1)
        (headers.length - vals.length) 1, h2]
    rw [hsplit, List.filterMap_append]
    have h2 : (List.range' vals.length (headers.length - vals.length)).filterMap
        (partAt (pcnIndicesOf headers) (buildPcnMap headers)
          (periodColsOf headers) headers vals) = [] := by
      refine List.filterMap_eq_nil_iff.mpr (fun i hi => ?_)
      have := List.mem_range'_1.mp hi
      exact partAt_none_of_le _ _ _ _ _ i (by omega)
    rw [h2, List.append_nil]
    refine filterMapCongr _ _ _ (fun i hi => ?_)
    have := List.mem_range'_1.mp hi
    exact partAt_eq_spec _ _ _ _ _ i (by omega)

/-- Witness for C10 on a two-cell row under a four-column header. -/
theorem rowParts_ragged_witness :
    ([("UMUMI").data, ("1").data] : List Str).length ≤ scenarioHeaders.length
    ∧ rowParts scenarioHeaders [("UMUMI").data, ("1").data]
        = rowPartsSpec scenarioHeaders [("UMUMI").data, ("1").data] :=
  ⟨by decide,
   rowParts_ragged scenarioHeaders [("UMUMI").data, ("1").data] (by decide)⟩
